import Mathlib

/-!
# Security Toolkit — verification of the password-generator core

Shallow embedding of `www/app.js` (secure random integer generation by
rejection sampling, password/passphrase synthesis, strength scoring).

Modelling conventions:
* JS numbers that the claims restrict to integers are modelled as `Int`
  (so negative arguments are expressible); 32-bit draws from
  `crypto.getRandomValues` are modelled as an explicit list of natural
  numbers `< 2^32` consumed left to right.
* A function that loops over the entropy source returns
  `Except SecErr (Option (result × remaining draws))`: `.error e` models a
  thrown exception, `.ok none` models exhausting the supplied draw list
  without the rejection loop accepting a value (i.e. the loop is still
  running), `.ok (some (r, rest))` models returning `r` with `rest` of the
  draw list unconsumed.
* JS strings are sequences of characters: arguments that the code slices
  character-wise are modelled as `List Char`, results as `String`.
* The numeric-input idiom `parseInt(x, 10) || d` is modelled by
  `numOrDefault : Option Int → Int → Int`, where `none` stands for a
  missing or non-numeric argument (`parseInt` returned `NaN`); note that a
  numeric argument equal to `0` is falsy in JS and also takes the default.
-/

/-- Error taxonomy of the core (spec §7): `invalidArgument` models the
`throw new Error(...)` for structurally unusable requests, and
`unavailableResource` the missing-word-list failure. -/
inductive SecErr where
  | invalidArgument
  | unavailableResource
deriving DecidableEq, Repr

deriving instance DecidableEq for Except

/-- Embeds `const maxValid = Math.floor(2**32 / max) * max` from
`secureRandom` (app.js line 43). For `1 ≤ m ≤ 2^32` the double-precision
computation in JS is exact, so `Nat` division is a faithful model. -/
def maxValid (m : Nat) : Nat := 2 ^ 32 / m * m

/-- Embeds the rejection loop of `secureRandom` (app.js lines 46-52):
draws are taken from the list until one is `< maxValid m`; the accepted
draw is returned modulo `m` together with the unconsumed draws. `none`
means the supplied draws were exhausted with every one rejected. -/
def secureRandomAux (m : Nat) : List Nat → Option (Nat × List Nat)
  | [] => none
  | v :: rest => if v ≥ maxValid m then secureRandomAux m rest else some (v % m, rest)

/-- Embeds `secureRandom(max)` (app.js lines 33-53): throws for
`max <= 0`, returns `0` immediately for `max === 1` (consuming no draws),
otherwise runs the rejection loop. -/
def secureRandom (max : Int) (draws : List Nat) : Except SecErr (Option (Nat × List Nat)) :=
  if max ≤ 0 then .error .invalidArgument
  else if max = 1 then .ok (some (0, draws))
  else
    match secureRandomAux max.toNat draws with
    | none => .ok none
    | some r => .ok (some r)

/-- An accepted draw is reduced modulo `m`, hence below `m`. -/
theorem secureRandomAux_lt (m : Nat) (hm : 0 < m) :
    ∀ draws v rest, secureRandomAux m draws = some (v, rest) → v < m := by
  intro draws
  induction draws with
  | nil => intro v rest h; simp [secureRandomAux] at h
  | cons a as ih =>
    intro v rest h
    rw [secureRandomAux] at h
    split at h
    · exact ih v rest h
    · have hv : v = a % m := by
        cases h
        rfl
      subst hv
      exact Nat.mod_lt a hm

/-- Whenever `secureRandom` returns a value, that value is below `max`. -/
theorem secureRandom_lt (max : Int) (draws : List Nat) (v : Nat) (rest : List Nat)
    (h : secureRandom max draws = .ok (some (v, rest))) : (v : Int) < max := by
  rw [secureRandom] at h
  split at h
  · cases h
  · split at h
    · cases h
      omega
    · rename_i h0 h1
      revert h
      split
      · intro h; cases h
      · intro h
        cases h
        rename_i heq
        have hm : 0 < max.toNat := by omega
        have := secureRandomAux_lt max.toNat hm draws v rest heq
        omega

/-- For a positive bound `secureRandom` never throws. -/
theorem secureRandom_pos_no_error (max : Int) (hmax : 0 < max) (draws : List Nat) (e : SecErr) :
    secureRandom max draws ≠ .error e := by
  rw [secureRandom]
  split
  · omega
  · split
    · intro h; cases h
    · split
      · intro h; cases h
      · intro h; cases h

/-- C2: `secureRandom` throws `invalidArgument` exactly when `max ≤ 0`;
`secureRandom 1` returns `0` consuming no draws; and whenever a call with
`max > 1` returns a value `v`, it satisfies `0 ≤ v < max`, for every
sequence of draws. -/
theorem secureRandom_contract (max : Int) (draws : List Nat) :
    (secureRandom max draws = .error .invalidArgument ↔ max ≤ 0)
    ∧ secureRandom 1 draws = .ok (some (0, draws))
    ∧ ∀ v rest, 1 < max → secureRandom max draws = .ok (some (v, rest)) →
        0 ≤ (v : Int) ∧ (v : Int) < max := by
  refine ⟨⟨?_, ?_⟩, ?_, ?_⟩
  · intro h
    by_contra hmax
    exact secureRandom_pos_no_error max (by omega) draws .invalidArgument h
  · intro h
    rw [secureRandom, if_pos h]
  · rw [secureRandom]
    norm_num
  · intro v rest _ h
    exact ⟨Int.ofNat_nonneg v, secureRandom_lt max draws v rest h⟩

/-- Witness for C2 at `max = 2`, `draws = [5]`: the draw `5` is accepted
(`maxValid 2 = 2^32`) and `5 % 2 = 1 < 2`. -/
theorem secureRandom_contract_witness : 0 ≤ (1 : Int) ∧ (1 : Int) < 2 :=
  (secureRandom_contract 2 [5]).2.2 1 [] (by decide) (by decide)

/-- With a zero rejection threshold every draw is rejected. -/
theorem secureRandomAux_zero (m : Nat) (h : maxValid m = 0) :
    ∀ draws, secureRandomAux m draws = none := by
  intro draws
  induction draws with
  | nil => rfl
  | cons a as ih => rw [secureRandomAux, if_pos (by omega), ih]

/-- C10: for `max > 2^32` the threshold `maxValid` computed by
`secureRandom` is `0`, so every 32-bit draw is rejected and the loop never
returns a value for any draw sequence; by contrast any positive
`m ≤ 2^32` yields a positive threshold (so acceptance is possible and
termination is only guaranteed under `0 < max ≤ 2^32`). -/
theorem secureRandom_above_word_range (max : Int) (h : (2 : Int) ^ 32 < max)
    (draws : List Nat) :
    maxValid max.toNat = 0
    ∧ secureRandom max draws = .ok none
    ∧ ∀ m : Nat, 0 < m → m ≤ 2 ^ 32 → 0 < maxValid m := by
  have hm : 2 ^ 32 < max.toNat := by omega
  have hz : maxValid max.toNat = 0 := by
    rw [maxValid, Nat.div_eq_of_lt hm, Nat.zero_mul]
  refine ⟨hz, ?_, ?_⟩
  · rw [secureRandom, if_neg (by omega), if_neg (by omega),
      secureRandomAux_zero max.toNat hz draws]
  · intro m hm0 hm32
    have h1 : 1 ≤ 2 ^ 32 / m := (Nat.one_le_div_iff hm0).mpr hm32
    calc 0 < 1 * m := by omega
      _ ≤ 2 ^ 32 / m * m := Nat.mul_le_mul_right m h1
  
/-- Witness for C10 at `max = 2^32 + 1` with draws `[0, 1]` (both
rejected), and threshold positivity at `m = 4`. -/
theorem secureRandom_above_word_range_witness :
    maxValid ((4294967297 : Int)).toNat = 0
    ∧ secureRandom 4294967297 [0, 1] = .ok none
    ∧ 0 < maxValid 4 :=
  ⟨(secureRandom_above_word_range 4294967297 (by norm_num) [0, 1]).1,
   (secureRandom_above_word_range 4294967297 (by norm_num) [0, 1]).2.1,
   (secureRandom_above_word_range 4294967297 (by norm_num) []).2.2 4 (by norm_num) (by norm_num)⟩

/-- Residue classes below a multiple of the modulus all have the same
cardinality: among `v < q * m` exactly `q` values satisfy `v % m = y`. -/
theorem card_filter_mod_eq (m y q : Nat) (hy : y < m) :
    ((Finset.range (q * m)).filter (fun v => v % m = y)).card = q := by
  have hm : 0 < m := by omega
  have himg : (Finset.range (q * m)).filter (fun v => v % m = y)
      = (Finset.range q).image (fun i => i * m + y) := by
    ext v
    simp only [Finset.mem_filter, Finset.mem_range, Finset.mem_image]
    constructor
    · rintro ⟨hv, hmod⟩
      refine ⟨v / m, ?_, ?_⟩
      · exact (Nat.div_lt_iff_lt_mul hm).mpr hv
      · have hd := Nat.div_add_mod v m
        rw [hmod] at hd
        rw [Nat.mul_comm] at hd
        exact hd
    · rintro ⟨i, hi, rfl⟩
      constructor
      · calc i * m + y < i * m + m := by omega
          _ = (i + 1) * m := by ring
          _ ≤ q * m := Nat.mul_le_mul_right m (by omega)
      · rw [Nat.add_comm, Nat.add_mul_mod_self_right, Nat.mod_eq_of_lt hy]
  rw [himg, Finset.card_image_of_injective, Finset.card_range]
  intro a b hab
  simp only at hab
  have : a * m = b * m := by omega
  exact Nat.eq_of_mul_eq_mul_right hm this

/-- C1: unbiasedness of the rejection-sampling scheme. For `1 < max ≤ 2^32`
and every target `y < max`, the number of 32-bit draws that the loop body
of `secureRandom` accepts and maps to `y` — i.e. draws `v < 2^32` with
`secureRandomAux max [v] = some (y, [])` — is `⌊2^32 / max⌋`, the same for
every `y`. -/
theorem secureRandom_unbiased (max : Nat) (h1 : 1 < max) (h2 : max ≤ 2 ^ 32)
    (y : Nat) (hy : y < max) :
    ((Finset.range (2 ^ 32)).filter
        (fun v => secureRandomAux max [v] = some (y, []))).card = 2 ^ 32 / max := by
  have hm : 0 < max := by omega
  have hpred : ∀ v : Nat,
      (secureRandomAux max [v] = some (y, [])) ↔ (v < maxValid max ∧ v % max = y) := by
    intro v
    rw [secureRandomAux]
    split
    · rename_i hrej
      rw [secureRandomAux]
      constructor
      · intro h; cases h
      · intro h; omega
    · rename_i hacc
      constructor
      · intro h
        cases h
        exact ⟨by omega, rfl⟩
      · rintro ⟨_, rfl⟩
        rfl
  have hle : maxValid max ≤ 2 ^ 32 := Nat.div_mul_le_self (2 ^ 32) max
  have hsplit : (Finset.range (2 ^ 32)).filter
      (fun v => secureRandomAux max [v] = some (y, []))
      = (Finset.range (maxValid max)).filter (fun v => v % max = y) := by
    ext v
    simp only [Finset.mem_filter, Finset.mem_range, hpred]
    omega
  rw [hsplit, maxValid, card_filter_mod_eq max y (2 ^ 32 / max) hy]

/-- Witness for C1 at `max = 3`, `y = 2`: each of the three residues has
`⌊2^32 / 3⌋` accepted preimages. -/
theorem secureRandom_unbiased_witness :
    ((Finset.range (2 ^ 32)).filter
        (fun v => secureRandomAux 3 [v] = some (2, []))).card = 2 ^ 32 / 3 :=
  secureRandom_unbiased 3 (by norm_num) (by norm_num) 2 (by norm_num)

/-- Character-set options for `generatePassword` (the four checkbox flags
read from the UI). -/
structure GenOptions where
  lower : Bool
  upper : Bool
  numbers : Bool
  symbols : Bool

/-- Embeds `SETS.lower` (app.js line 17). -/
def SETS_lower : List Char := "abcdefghijklmnopqrstuvwxyz".toList

/-- Embeds `SETS.upper` (app.js line 18). -/
def SETS_upper : List Char := "ABCDEFGHIJKLMNOPQRSTUVWXYZ".toList

/-- Embeds `SETS.numbers` (app.js line 19). -/
def SETS_numbers : List Char := "0123456789".toList

/-- Embeds `SETS.symbols` (app.js line 20). -/
def SETS_symbols : List Char := "!@#$%^&*()_+-=[]\x7b\x7d|;:,.<>?".toList

/-- Embeds the pool construction of `generatePassword` (app.js lines
97-101): enabled sets concatenated in the fixed order lower, upper,
numbers, symbols. -/
def buildPool (o : GenOptions) : List Char :=
  (if o.lower then SETS_lower else [])
    ++ (if o.upper then SETS_upper else [])
    ++ (if o.numbers then SETS_numbers else [])
    ++ (if o.symbols then SETS_symbols else [])

/-- Models the JS idiom `parseInt(x, 10) || d`: `none` stands for a
missing or non-numeric argument (`parseInt` gave `NaN`); a numeric
argument equal to `0` is falsy and also takes the default `d`. -/
def numOrDefault (arg : Option Int) (d : Int) : Int :=
  match arg with
  | none => d
  | some n => if n = 0 then d else n

/-- Embeds `const len = Math.max(6, Math.min(64, parseInt(length, 10) || 16))`
(app.js line 108). -/
def clampLen (arg : Option Int) : Int := max 6 (min 64 (numOrDefault arg 16))

/-- Embeds the indexing loop shared by `generatePassword` (app.js lines
112-114) and `generatePassphrase` (lines 135-137): pick `n` elements of
`xs`, each at an index drawn by `secureRandom xs.length`, in draw order.
`dflt` is an arbitrary default for the (never reached) out-of-range index
lookup. -/
def drawFrom {α : Type} (dflt : α) (xs : List α) :
    Nat → List Nat → Except SecErr (Option (List α × List Nat))
  | 0, draws => .ok (some ([], draws))
  | n + 1, draws =>
    match secureRandom (xs.length : Int) draws with
    | .error e => .error e
    | .ok none => .ok none
    | .ok (some (i, rest)) =>
      match drawFrom dflt xs n rest with
      | .error e => .error e
      | .ok none => .ok none
      | .ok (some (picked, rest2)) => .ok (some (xs.getD i dflt :: picked, rest2))

/-- Embeds `generatePassword(length, options)` (app.js lines 95-117). -/
def generatePassword (lengthArg : Option Int) (o : GenOptions) (draws : List Nat) :
    Except SecErr (Option (String × List Nat)) :=
  let pool := buildPool o
  if pool.isEmpty then .error .invalidArgument
  else
    match drawFrom ' ' pool (clampLen lengthArg).toNat draws with
    | .error e => .error e
    | .ok none => .ok none
    | .ok (some (cs, rest)) => .ok (some (String.mk cs, rest))

/-- For a nonempty source list `drawFrom` never throws. -/
theorem drawFrom_no_error {α : Type} (dflt : α) (xs : List α) (hx : xs ≠ []) :
    ∀ n draws e, drawFrom dflt xs n draws ≠ .error e := by
  intro n
  induction n with
  | zero => intro draws e h; cases h
  | succ n ih =>
    intro draws e h
    rw [drawFrom] at h
    have hpos : (0 : Int) < (xs.length : Int) := by
      have : xs.length ≠ 0 := fun hc => hx (List.eq_nil_of_length_eq_zero hc)
      omega
    split at h
    · rename_i e2 heq
      exact secureRandom_pos_no_error _ hpos draws e2 heq
    · cases h
    · split at h
      · rename_i e2 heq
        exact ih _ e2 heq
      · cases h
      · cases h

/-- Whenever `drawFrom` returns a list, it has exactly `n` elements and
each belongs to the source list. -/
theorem drawFrom_sound {α : Type} (dflt : α) (xs : List α) :
    ∀ n draws picked rest,
      drawFrom dflt xs n draws = .ok (some (picked, rest)) →
      picked.length = n ∧ ∀ a ∈ picked, a ∈ xs := by
  intro n
  induction n with
  | zero =>
    intro draws picked rest h
    rw [drawFrom] at h
    cases h
    exact ⟨rfl, by intro a ha; cases ha⟩
  | succ n ih =>
    intro draws picked rest h
    rw [drawFrom] at h
    split at h
    · cases h
    · cases h
    · rename_i i rest1 hsec
      split at h
      · cases h
      · cases h
      · rename_i picked1 rest2 hrec
        cases h
        have hi : (i : Int) < (xs.length : Int) := secureRandom_lt _ draws i rest1 hsec
        have hilt : i < xs.length := by omega
        have ⟨hlen, hmem⟩ := ih rest1 picked1 _ hrec
        refine ⟨by simp [hlen], ?_⟩
        intro a ha
        cases ha with
        | head =>
          rw [List.getD_eq_getElem xs dflt hilt]
          exact List.getElem_mem hilt
        | tail _ htl => exact hmem a htl

/-- Membership in a conditionally included character set forces the flag. -/
theorem mem_ite_list {α : Type} (b : Bool) (S : List α) (c : α)
    (h : c ∈ if b = true then S else []) : b = true ∧ c ∈ S := by
  cases b
  · simp at h
  · exact ⟨rfl, by simpa using h⟩

/-- The pool is empty exactly when all four flags are off. -/
theorem buildPool_eq_nil_iff (o : GenOptions) :
    buildPool o = [] ↔
      o.lower = false ∧ o.upper = false ∧ o.numbers = false ∧ o.symbols = false := by
  rcases o with ⟨l, u, nm, sy⟩
  cases l <;> cases u <;> cases nm <;> cases sy <;> decide

/-- C3 counterexample: the claim asserts `generatePassword(0, {lower:true})`
returns a string of length 6, but `parseInt(0, 10) || 16` takes the
default branch (`0` is falsy in JS), so the produced password has length
16, not 6: with sixteen zero draws the result is sixteen copies of `'a'`. -/
theorem generatePassword_zero_length_cx :
    generatePassword (some 0) ⟨true, false, false, false⟩ (List.replicate 16 0)
      = .ok (some ("aaaaaaaaaaaaaaaa", []))
    ∧ ("aaaaaaaaaaaaaaaa" : String).length ≠ 6 := by
  exact ⟨by decide, by decide⟩

/-- C3 (amended): `generatePassword` clamps its length argument to
`[6, 64]`, with non-numeric, missing, or zero input defaulting to 16
before clamping; every produced password has length `clampLen lengthArg`
(so 16 at argument 0, 64 at 1000, 16 at 16) and every character belongs to
the union of the enabled character sets. -/
theorem generatePassword_clamped (lengthArg : Option Int) (o : GenOptions)
    (draws : List Nat) (s : String) (rest : List Nat)
    (h : generatePassword lengthArg o draws = .ok (some (s, rest))) :
    s.length = (clampLen lengthArg).toNat
    ∧ (∀ c ∈ s.toList,
        (o.lower = true ∧ c ∈ SETS_lower) ∨ (o.upper = true ∧ c ∈ SETS_upper)
          ∨ (o.numbers = true ∧ c ∈ SETS_numbers) ∨ (o.symbols = true ∧ c ∈ SETS_symbols))
    ∧ clampLen (some 0) = 16 ∧ clampLen (some 1000) = 64 ∧ clampLen (some 16) = 16 := by
  simp only [generatePassword] at h
  split at h
  · cases h
  · split at h
    · cases h
    · cases h
    · rename_i cs rest2 hdraw
      cases h
      have ⟨hlen, hmem⟩ := drawFrom_sound ' ' (buildPool o) _ draws cs _ hdraw
      refine ⟨?_, ?_, by decide, by decide, by decide⟩
      · show cs.length = (clampLen lengthArg).toNat
        exact hlen
      · intro c hc
        have hcs : c ∈ cs := hc
        have hcp : c ∈ buildPool o := hmem c hcs
        rw [buildPool] at hcp
        rcases List.mem_append.mp hcp with hcp | hsy
        · rcases List.mem_append.mp hcp with hcp | hnm
          · rcases List.mem_append.mp hcp with hlo | hup
            · exact Or.inl (mem_ite_list o.lower SETS_lower c hlo)
            · exact Or.inr (Or.inl (mem_ite_list o.upper SETS_upper c hup))
          · exact Or.inr (Or.inr (Or.inl (mem_ite_list o.numbers SETS_numbers c hnm)))
        · exact Or.inr (Or.inr (Or.inr (mem_ite_list o.symbols SETS_symbols c hsy)))

/-- Witness for C3 at length 7, lowercase only, seven zero draws. -/
theorem generatePassword_clamped_witness :
    ("aaaaaaa" : String).length = (clampLen (some 7)).toNat ∧ clampLen (some 0) = 16 :=
  ⟨(generatePassword_clamped (some 7) ⟨true, false, false, false⟩ (List.replicate 7 0)
      "aaaaaaa" [] (by decide)).1,
   (generatePassword_clamped (some 7) ⟨true, false, false, false⟩ (List.replicate 7 0)
      "aaaaaaa" [] (by decide)).2.2.1⟩

/-- C4: `generatePassword` throws `invalidArgument` exactly when the pool
built from the options is empty, i.e. all four flags are off — regardless
of the length argument and of the draws (and then no string is returned,
the result being an error). -/
theorem generatePassword_empty_pool_iff (lengthArg : Option Int) (o : GenOptions)
    (draws : List Nat) :
    generatePassword lengthArg o draws = .error .invalidArgument
      ↔ o.lower = false ∧ o.upper = false ∧ o.numbers = false ∧ o.symbols = false := by
  rw [← buildPool_eq_nil_iff]
  constructor
  · intro h
    by_contra hne
    simp only [generatePassword] at h
    rw [if_neg (by simpa using hne)] at h
    split at h
    · rename_i e heq
      exact drawFrom_no_error ' ' (buildPool o) hne _ draws e heq
    · cases h
    · cases h
  · intro hnil
    simp only [generatePassword]
    rw [if_pos (by simpa using hnil)]

/-- Embeds `const count = Math.max(3, Math.min(12, parseInt(wordCount, 10) || 6))`
(app.js line 131). -/
def clampCount (arg : Option Int) : Int := max 3 (min 12 (numOrDefault arg 6))

/-- Embeds `const sep = (separator || '-').slice(0, 10)` (app.js line
132): an empty separator is falsy and replaced by `"-"`, then the result
is truncated to at most 10 characters. -/
def defaultSep (sepArg : List Char) : List Char :=
  (if sepArg = [] then ['-'] else sepArg).take 10

/-- Embeds `generatePassphrase(wordCount, separator)` (app.js lines
126-140). The word-list global `BIP39_WORDS` is passed as `Option
(List String)`: `none` models the script not loaded (`typeof BIP39_WORDS
=== 'undefined'` or falsy), `some ws` a loaded list (possibly empty). The
word-list data file itself is not part of the sources; only its length
(2048, per the spec) matters to the claims. -/
def generatePassphrase (wordList : Option (List String)) (wordCountArg : Option Int)
    (sepArg : List Char) (draws : List Nat) : Except SecErr (Option (String × List Nat)) :=
  match wordList with
  | none => .error .unavailableResource
  | some ws =>
    if ws.length = 0 then .error .unavailableResource
    else
      match drawFrom "" ws (clampCount wordCountArg).toNat draws with
      | .error e => .error e
      | .ok none => .ok none
      | .ok (some (words, rest)) =>
          .ok (some (String.intercalate (String.mk (defaultSep sepArg)) words, rest))

/-- C5: with a loaded word list, every produced passphrase consists of
exactly `clampCount wordCountArg` words (the count clamped to `[3, 12]`,
defaulting to 6 on missing/non-numeric input), each a member of the word
list, joined in draw order by the separator (truncated to at most 10
characters, defaulting to `"-"` when empty). -/
theorem generatePassphrase_composition (ws : List String) (wcArg : Option Int)
    (sepArg : List Char) (draws : List Nat) (s : String) (rest : List Nat)
    (h : generatePassphrase (some ws) wcArg sepArg draws = .ok (some (s, rest))) :
    (∃ words : List String, (words.length : Int) = clampCount wcArg
        ∧ (∀ w ∈ words, w ∈ ws)
        ∧ s = String.intercalate (String.mk (defaultSep sepArg)) words)
    ∧ 3 ≤ clampCount wcArg ∧ clampCount wcArg ≤ 12
    ∧ clampCount none = 6 ∧ clampCount (some 6) = 6
    ∧ (defaultSep sepArg).length ≤ 10
    ∧ defaultSep [] = ['-'] ∧ defaultSep ['-'] = ['-'] := by
  have hrange : 3 ≤ clampCount wcArg ∧ clampCount wcArg ≤ 12 := by
    rw [clampCount]
    omega
  simp only [generatePassphrase] at h
  split at h
  · cases h
  · split at h
    · cases h
    · cases h
    · rename_i words rest2 hdraw
      cases h
      have ⟨hlen, hmem⟩ := drawFrom_sound "" ws _ draws words _ hdraw
      refine ⟨⟨words, ?_, hmem, rfl⟩, hrange.1, hrange.2, by decide, by decide, ?_, by decide,
        by decide⟩
      · rw [hlen]
        omega
      · rw [defaultSep]
        rw [List.length_take]
        omega

/-- Witness for C5 with the two-word list `["alpha", "beta"]`, three words
requested and draws `[0, 1, 0]`, producing `"alpha-beta-alpha"`. -/
theorem generatePassphrase_composition_witness :
    3 ≤ clampCount (some 3) ∧ clampCount none = 6 ∧ defaultSep ['-'] = ['-'] :=
  ⟨(generatePassphrase_composition ["alpha", "beta"] (some 3) ['-'] [0, 1, 0]
      "alpha-beta-alpha" [] (by decide)).2.1,
   (generatePassphrase_composition ["alpha", "beta"] (some 3) ['-'] [0, 1, 0]
      "alpha-beta-alpha" [] (by decide)).2.2.2.1,
   (generatePassphrase_composition ["alpha", "beta"] (some 3) ['-'] [0, 1, 0]
      "alpha-beta-alpha" [] (by decide)).2.2.2.2.2.2.2⟩

/-- C6: `generatePassphrase` throws `unavailableResource` exactly when the
word list is not loaded (`none`) or empty (`some []`), for every word
count, separator and draw sequence; being an error, no output string (in
particular no partial result) is produced in that case. -/
theorem generatePassphrase_unavailable_iff (wordList : Option (List String))
    (wcArg : Option Int) (sepArg : List Char) (draws : List Nat) :
    generatePassphrase wordList wcArg sepArg draws = .error .unavailableResource
      ↔ wordList = none ∨ wordList = some [] := by
  cases wordList with
  | none => simp [generatePassphrase]
  | some ws =>
    by_cases hempty : ws = []
    · subst hempty
      simp [generatePassphrase]
    · have hlen : ¬ ws.length = 0 := by
        simpa [List.length_eq_zero] using hempty
      simp only [generatePassphrase]
      rw [if_neg hlen]
      constructor
      · intro h
        exfalso
        split at h
        · rename_i e heq
          exact drawFrom_no_error "" ws hempty _ draws e heq
        · cases h
        · cases h
      · intro h
        rcases h with h | h
        · cases h
        · rw [Option.some_inj] at h
          exact absurd h hempty

/-- Embeds the regex test `/[a-z]/.test` on a single character (app.js
line 72). -/
def lowerTest (c : Char) : Bool := decide ('a' ≤ c) && decide (c ≤ 'z')

/-- Embeds the regex test `/[A-Z]/.test` on a single character (app.js
line 73). -/
def upperTest (c : Char) : Bool := decide ('A' ≤ c) && decide (c ≤ 'Z')

/-- Embeds the regex test `/[0-9]/.test` on a single character (app.js
line 74). -/
def digitTest (c : Char) : Bool := decide ('0' ≤ c) && decide (c ≤ '9')

/-- Embeds the regex test `/[^a-zA-Z0-9]/.test` on a single character
(app.js line 75): everything outside the previous three classes. -/
def symbolTest (c : Char) : Bool := !(lowerTest c || upperTest c || digitTest c)

/-- Embeds the variety computation of `calculateStrength` (app.js lines
72-77): the number of the four character classes present in the password. -/
def varietyCount (p : List Char) : Nat :=
  (if p.any lowerTest then 1 else 0) + (if p.any upperTest then 1 else 0)
    + (if p.any digitTest then 1 else 0) + (if p.any symbolTest then 1 else 0)

/-- Embeds `calculateStrength(password)` (app.js lines 61-86), with the
sequence of score updates flattened into one expression: base
`min(length*4, 40)`, plus `15` per present class, minus
`2 * (length - distinct characters)` floored at `0` (`Nat` subtraction),
finally capped at `100`. -/
def calculateStrength (p : List Char) : Nat :=
  if p.length = 0 then 0
  else min (min (p.length * 4) 40 + varietyCount p * 15 - (p.length - p.dedup.length) * 2) 100

/-- Reference formula of claim C7, written from the spec's words over `Int`
arithmetic: `0` on empty input, otherwise
`min(100, max(0, min(4·len, 40) + 15·classes − 2·(len − distinct)))` with
`distinct` the number of distinct characters. -/
def strengthRef (p : List Char) : Int :=
  if p = [] then 0
  else
    min 100 (max 0 (min ((p.length : Int) * 4) 40
      + 15 * ((if ∃ c ∈ p, lowerTest c = true then 1 else 0)
        + (if ∃ c ∈ p, upperTest c = true then 1 else 0)
        + (if ∃ c ∈ p, digitTest c = true then 1 else 0)
        + (if ∃ c ∈ p, symbolTest c = true then 1 else 0))
      - 2 * ((p.length : Int) - p.toFinset.card)))

/-- C7: `calculateStrength` agrees with the reference definition of the
claim on every string, and its result always lies in `[0, 100]` (the lower
bound holds because the result is a natural number); the function is a
total Lean function, hence deterministic with no failure mode. -/
theorem calculateStrength_ref (p : List Char) :
    (calculateStrength p : Int) = strengthRef p ∧ calculateStrength p ≤ 100 := by
  constructor
  · by_cases hp : p = []
    · subst hp; simp [calculateStrength, strengthRef]
    · have hlen : ¬ p.length = 0 := by simpa [List.length_eq_zero] using hp
      have hU : p.dedup.length ≤ p.length := (List.dedup_sublist p).length_le
      have hC : p.toFinset.card = p.dedup.length := List.card_toFinset p
      rw [calculateStrength, strengthRef, if_neg hlen, if_neg hp, varietyCount, hC]
      simp only [List.any_eq_true]
      split_ifs <;> omega
  · rw [calculateStrength]
    split
    · omega
    · exact Nat.min_le_right _ _

/-- Embeds `getStrengthDescription(score)` (app.js lines 148-153); the
four returned strings are the code's Russian labels for, in order, weak,
medium, strong and very strong. -/
def getStrengthDescription (score : Int) : String :=
  if score < 40 then "Слабый пароль"
  else if score < 70 then "Средний пароль"
  else if score < 90 then "Надёжный пароль"
  else "Очень надёжный пароль"

/-- C8: `getStrengthDescription` partitions scores at 40, 70 and 90 with
lower bounds inclusive (weak below 40, medium in `[40, 70)`, strong in
`[70, 90)`, very strong from 90 up), and the eight boundary scores 0, 39,
40, 69, 70, 89, 90, 100 map to weak, weak, medium, medium, strong,
strong, very strong, very strong respectively. -/
theorem getStrengthDescription_bands (score : Int) :
    (score < 40 → getStrengthDescription score = "Слабый пароль")
    ∧ (40 ≤ score ∧ score < 70 → getStrengthDescription score = "Средний пароль")
    ∧ (70 ≤ score ∧ score < 90 → getStrengthDescription score = "Надёжный пароль")
    ∧ (90 ≤ score → getStrengthDescription score = "Очень надёжный пароль")
    ∧ getStrengthDescription 0 = "Слабый пароль"
    ∧ getStrengthDescription 39 = "Слабый пароль"
    ∧ getStrengthDescription 40 = "Средний пароль"
    ∧ getStrengthDescription 69 = "Средний пароль"
    ∧ getStrengthDescription 70 = "Надёжный пароль"
    ∧ getStrengthDescription 89 = "Надёжный пароль"
    ∧ getStrengthDescription 90 = "Очень надёжный пароль"
    ∧ getStrengthDescription 100 = "Очень надёжный пароль" := by
  refine ⟨?_, ?_, ?_, ?_, by decide, by decide, by decide, by decide, by decide, by decide,
    by decide, by decide⟩
  · intro h
    rw [getStrengthDescription, if_pos h]
  · rintro ⟨h1, h2⟩
    rw [getStrengthDescription, if_neg (by omega), if_pos h2]
  · rintro ⟨h1, h2⟩
    rw [getStrengthDescription, if_neg (by omega), if_neg (by omega), if_pos h2]
  · intro h
    rw [getStrengthDescription, if_neg (by omega), if_neg (by omega), if_neg (by omega)]

/-- Witness for C8 at score 39, inside the weak band. -/
theorem getStrengthDescription_bands_witness :
    getStrengthDescription 39 = "Слабый пароль" :=
  (getStrengthDescription_bands 39).1 (by decide)

/-- Modelled from the spec: the BIP39 word-list data file defining
`BIP39_WORDS` ("a fixed, immutable ordered sequence of exactly 2048
distinct words", spec §3) is not among the sources; only its length
matters to the claims, so a stand-in list of 2048 distinct words is used. -/
def specWordList : List String := (List.range 2048).map (fun i => toString i)

/-- Embeds `calculateEntropy(wordCount)` (app.js lines 161-167):
`Math.log2` is modelled by `Real.logb 2` (exact for the power-of-two list
size the claims are about). `none` models an undefined or falsy
`BIP39_WORDS`, in which case the code returns `0` without looking at the
length. -/
noncomputable def calculateEntropy (wordList : Option (List String)) (wordCount : Int) : ℝ :=
  match wordList with
  | none => 0
  | some ws => Real.logb 2 (ws.length : ℝ) * (wordCount : ℝ)

/-- C9: `calculateEntropy` returns 0 when the word list is unavailable and
`wordCount * log2 (word-list size)` bits when it is loaded; with a
2048-word list, six words give exactly 66 bits. -/
theorem calculateEntropy_bits (wordCount : Int) :
    calculateEntropy none wordCount = 0
    ∧ (∀ ws : List String,
        calculateEntropy (some ws) wordCount = (wordCount : ℝ) * Real.logb 2 (ws.length : ℝ))
    ∧ (∀ ws : List String, ws.length = 2048 → calculateEntropy (some ws) 6 = 66) := by
  refine ⟨rfl, fun ws => by rw [calculateEntropy]; ring, ?_⟩
  intro ws hws
  rw [calculateEntropy, hws]
  have h2048 : ((2048 : Nat) : ℝ) = (2 : ℝ) ^ (11 : ℕ) := by norm_num
  rw [h2048, Real.logb_pow, Real.logb_self_eq_one (by norm_num)]
  norm_num

/-- Witness for C9 using the stand-in 2048-word list. -/
theorem calculateEntropy_bits_witness :
    calculateEntropy (some specWordList) 6 = 66 :=
  (calculateEntropy_bits 6).2.2 specWordList (by simp [specWordList])
